import Mathlib

/-!
Shallow embedding of the population-size-regression notebook
(ancPopSizeRegressionExample.ipynb) of popGenMachineLearningExamples.

The notebook code has four stages relevant here:
1. a parameter sampler writing one log-uniform draw per line to a file,
2. an invocation of the external coalescent simulator ms, driven by that
   file through the per-replicate tbs mechanism,
3. the replicate parser / feature assembler: msTools.msOutToHaplotypeArrayIn
   followed by a loop computing four scikit-allel summary statistics per
   replicate,
4. alignment of the feature matrix with the label vector read back from the
   parameter file.

Python floats are modelled as exact real numbers; the sampled values and the
"percent-f" fixed-point formatting are modelled over the reals, everything
downstream over the rationals.  Functions of the repository that are not part
of the two source files (msTools.py) and external library calls (scikit-allel,
scikit-learn, ms) are modelled from the specification; each such definition
carries a doc comment starting with "Modelled from the spec:".  Failure of a
Python step (raised exception / assertion) is modelled as the value none.
-/

namespace PopGenML

/-! ### Stage 1: the parameter sampler (source cell, lines 137-143)

    for i in range(10000):
        popSize = 10**(random.random()*2-1)
        f.write("%f\n" %(popSize))

random.random() returns a float in [0,1); it is modelled as an arbitrary real
r with 0 <= r < 1. -/

/-- One sampled value: `10**(r*2-1)` where `r` is the uniform draw. -/
noncomputable def popSize (r : ℝ) : ℝ := (10 : ℝ) ^ (r * 2 - 1)

/-- The value written by the format `%f`: the argument rounded to six digits
after the decimal point (rounding to the nearest multiple of `10⁻⁶`). -/
noncomputable def fmtF6 (x : ℝ) : ℚ := (round (x * 10 ^ 6) : ℚ) / 10 ^ 6

/-- The numeric contents of the parameter file, one entry per line, in
generation order, given the list of uniform draws `rs`. -/
noncomputable def sizesLines (rs : List ℝ) : List ℚ :=
  rs.map fun r => fmtF6 (popSize r)

/-! ### Stage 2: the external simulator invocation (source cell, line 162)

    ./ms 20 10000 -t 100 -r 100 10000 -en 0.5 1 tbs < random_pop_size.sizes

ms is an external binary, excluded from the spec scope; only the shape of its
output stream and the tbs mechanism (one parameter line consumed per
replicate, in order) are specified. -/

/-- One raw replicate block of the simulator output stream, per the spec
grammar: a segregating-site count line, a line of continuous positions in
[0,1), and the 0/1 haplotype lines (one per haploid sample).  Digits are kept
as naturals so that an unparsable entry (anything other than 0 or 1) is
representable. -/
structure MsBlock where
  segsites : ℕ
  positions : List ℚ
  hapLines : List (List ℕ)
deriving DecidableEq

/-- A whole simulator output stream: a command-echo header line (skipped by
the parser, modelled as an opaque list of character codes) followed by the
replicate blocks. -/
structure MsOut where
  header : List ℕ
  blocks : List MsBlock
deriving DecidableEq

/-- Modelled from the spec: the external simulator invocation.  The spec says
the per-replicate size-change parameter is "supplied via the parameter file
(the read-parameter-from-stdin-per-replicate mechanism)", so replicate `i` of
the output stream is produced from line `i` of the parameter file.  The
simulator itself is abstracted as an arbitrary function `sim` from a
parameter value to a block. -/
def msRun (sim : ℚ → MsBlock) (params : List ℚ) : MsOut :=
  ⟨[], params.map sim⟩

/-- Modelled from the spec: `np.loadtxt` on the parameter file, which holds
"one floating-point decimal value per line, no header"; reading it back
yields the numeric line values in file order. -/
def loadtxt (lines : List ℚ) : List ℚ := lines

/-! ### Stage 3a: the replicate parser (msTools.msOutToHaplotypeArrayIn)

msTools.py belongs to the repository but is not among the given source
files, so the parser is modelled from the spec (section 4.2). -/

/-- A parsed replicate: integer site coordinates after discretization and the
sample-by-site binary matrix (one row per haploid sample). -/
structure Replicate where
  positions : List ℤ
  haps : List (List Bool)
deriving DecidableEq

/-- Modelled from the spec: "multiply each by a caller-supplied total length
and round/floor to an integer coordinate". -/
def discretize (totalPhysLen : ℕ) (p : ℚ) : ℤ := ⌊p * (totalPhysLen : ℚ)⌋

/-- Modelled from the spec: parsing of one replicate block.  The guards are
the failure conditions of spec sections 4.2 and 7: the declared
segregating-site count must match the position line, positions must be
continuous values in [0,1), the discretization resolution must exceed the
segregating-site count ("fail loudly if resolution is insufficient"), the
number of haplotype lines must equal the sample count, and every haplotype
line must be a 0/1 string of the declared width.  Any violation is fatal
(none). -/
def parseBlock (nsam totalPhysLen : ℕ) (b : MsBlock) : Option Replicate :=
  if b.positions.length = b.segsites
      ∧ (∀ p ∈ b.positions, 0 ≤ p ∧ p < 1)
      ∧ b.segsites < totalPhysLen
      ∧ b.hapLines.length = nsam
      ∧ (∀ row ∈ b.hapLines, row.length = b.segsites ∧ ∀ d ∈ row, d = 0 ∨ d = 1)
  then some { positions := b.positions.map (discretize totalPhysLen),
              haps := b.hapLines.map fun row => row.map fun d => d == 1 }
  else none

/-- All-or-nothing traversal: parse every element, failing the whole run as
soon as one element fails. -/
def traverseOpt (f : α → Option β) : List α → Option (List β)
  | [] => some []
  | a :: l =>
    match f a with
    | none => none
    | some b =>
      match traverseOpt f l with
      | none => none
      | some bs => some (b :: bs)

/-- Modelled from the spec: msTools.msOutToHaplotypeArrayIn.  Skips the
command-echo header and parses every replicate block; a malformed block fails
the whole run ("this pipeline has no partial-failure tolerance").  The sample
count `nsam` is the fixed per-replicate haplotype count (20 in the reference
run). -/
def msOutToHaplotypeArrayIn (nsam totalPhysLen : ℕ) (m : MsOut) :
    Option (List Replicate) :=
  traverseOpt (parseBlock nsam totalPhysLen) m.blocks

/-! ### Stage 3b: the per-replicate statistics

The statistic formulas live in scikit-allel, an external library excluded
from the spec scope; they are modelled from the spec at the level of detail
the spec gives (section 4.2, step 4). -/

/-- Number of derived alleles at site `j` of a sample-by-site binary matrix:
the column sum at `j`. -/
def columnCount (haps : List (List Bool)) (j : ℕ) : ℕ :=
  (haps.map fun row => (row.getD j false).toNat).sum

/-- Modelled from the spec: `HaplotypeArray.to_genotypes(ploidy=2)` pairs
adjacent haploid samples into diploid individuals; with an odd number of rows
the pairing is undefined and the call fails. -/
def to_genotypes : List (List Bool) → Option (List (List Bool × List Bool))
  | [] => some []
  | [_] => none
  | a :: b :: rest => (to_genotypes rest).map fun g => (a, b) :: g

/-- Number of derived alleles at site `j` of a genotype list: the sum over
individuals of the derived-allele copies carried at `j`. -/
def genoColumnCount (genos : List (List Bool × List Bool)) (j : ℕ) : ℕ :=
  (genos.map fun g => (g.1.getD j false).toNat + (g.2.getD j false).toNat).sum

/-- Modelled from the spec: `GenotypeArray.count_alleles`, "counting
derived-allele occurrences per site"; entry `j` is the pair (ancestral
count, derived count) at site `j`, totalling two per individual. -/
def count_alleles (genos : List (List Bool × List Bool)) (numSites : ℕ) :
    List (ℕ × ℕ) :=
  (List.range numSites).map fun j =>
    (2 * genos.length - genoColumnCount genos j, genoColumnCount genos j)

/-- Number of segregating sites of an allele-count table: sites at which both
alleles are present. -/
def countSegregating (ac : List (ℕ × ℕ)) : ℕ :=
  ac.countP fun c => decide (0 < c.1 ∧ 0 < c.2)

/-- Mean pairwise difference at one site with allele counts `c`: the number
of unequal pairs over the number of pairs. -/
def sitePairwiseDiff (c : ℕ × ℕ) : ℚ :=
  (c.1 * c.2 : ℚ) / ((c.1 + c.2).choose 2 : ℚ)

/-- Harmonic correction `a1 = 1 + 1/2 + ... + 1/(n-1)` for sample size n. -/
def harmonic (n : ℕ) : ℚ :=
  ((List.range (n - 1)).map fun i : ℕ => (1 : ℚ) / ((i : ℚ) + 1)).sum

/-- Modelled from the spec: "a per-site nucleotide diversity estimator
normalized by total sequence length" (pi). -/
def sequence_diversity (ac : List (ℕ × ℕ)) (seqLen : ℕ) : ℚ :=
  (ac.map sitePairwiseDiff).sum / (seqLen : ℚ)

/-- Modelled from the spec: "a per-site mutation-rate estimator normalized by
total sequence length and sample count (harmonic-number correction)"
(Watterson theta). -/
def watterson_theta (ac : List (ℕ × ℕ)) (nsam seqLen : ℕ) : ℚ :=
  (countSegregating ac : ℚ) / (harmonic nsam * (seqLen : ℚ))

/-- Modelled from the spec: the first component of the Garud H statistics,
the sum of squared haplotype frequencies (haplotype homozygosity). -/
def garud_h1 (haps : List (List Bool)) : ℚ :=
  (haps.dedup.map fun h => ((haps.count h : ℚ) / (haps.length : ℚ)) ^ 2).sum

/-- Modelled from the spec: the Tajima D statistic, "an estimator comparing
two measures of genetic diversity (returns 0 or a defined sentinel when
segregating-site count is 0 or 1, since variance is undefined)".  The
degenerate branch returns the sentinel 0; the non-degenerate branch compares
the two diversity measures (sum of site mean pairwise differences against the
harmonic-corrected segregating-site count); the variance normalization of the
external formula is outside the spec scope. -/
def tajima_d (ac : List (ℕ × ℕ)) (nsam : ℕ) : ℚ :=
  if countSegregating ac ≤ 1 then 0
  else (ac.map sitePairwiseDiff).sum - (countSegregating ac : ℚ) / harmonic nsam

/-! ### Stage 3c/4: the feature-assembly loop and alignment
(source cell, lines 182-217). -/

/-- The feature vector of one replicate, exactly as built in the source loop:

    currVec.append(...tajima_d(ac, pos=positionArrays[i]))
    currVec.append(...sequence_diversity(positionArrays[i], ac))
    currVec.append(...watterson_theta(positionArrays[i], ac))
    currVec.append(...garud_h(haps)[0])

where `ac` comes from `haps.to_genotypes(ploidy=2).count_alleles()`; a
failure of the genotype pairing aborts the computation. -/
def currVec (nsam totalPhysLen : ℕ) (rep : Replicate) : Option (List ℚ) :=
  (to_genotypes rep.haps).map fun genos =>
    let ac := count_alleles genos rep.positions.length
    [tajima_d ac nsam,
     sequence_diversity ac totalPhysLen,
     watterson_theta ac nsam totalPhysLen,
     garud_h1 rep.haps]

/-- The feature matrix `X`: one feature vector per parsed replicate, in
stream order (the source loop `for i in range(len(hapArraysIn))`). -/
def buildX (nsam totalPhysLen : ℕ) (reps : List Replicate) :
    Option (List (List ℚ)) :=
  traverseOpt (currVec nsam totalPhysLen) reps

/-- Modelled from the spec: the feature matrix and the label vector are
handed to the external train/test splitter, for which "any mismatch is a
fatal data-integrity error for the pipeline"; the check is modelled here as
the final pipeline guard. -/
def alignedDataset (X : List (List ℚ)) (Y : List ℚ) :
    Option (List (List ℚ) × List ℚ) :=
  if X.length = Y.length then some (X, Y) else none

/-- The notebook pipeline from simulator output to the aligned dataset:
parse the stream, assemble the feature matrix, read the labels back from the
parameter file, and fail on any row/label mismatch. -/
def pipeline (nsam totalPhysLen : ℕ) (sizes : List ℚ) (m : MsOut) :
    Option (List (List ℚ) × List ℚ) :=
  (msOutToHaplotypeArrayIn nsam totalPhysLen m).bind fun reps =>
    (buildX nsam totalPhysLen reps).bind fun X =>
      alignedDataset X (loadtxt sizes)

/-! ### Helper lemmas on the all-or-nothing traversal -/

theorem traverseOpt_length {α β : Type} (f : α → Option β) :
    ∀ (l : List α) (ys : List β), traverseOpt f l = some ys → ys.length = l.length := by
  intro l
  induction l with
  | nil =>
    intro ys h
    simp only [traverseOpt, Option.some.injEq] at h
    simp [← h]
  | cons a l ih =>
    intro ys h
    cases hfa : f a with
    | none => simp [traverseOpt, hfa] at h
    | some b =>
      cases hrec : traverseOpt f l with
      | none => simp [traverseOpt, hfa, hrec] at h
      | some bs =>
        simp only [traverseOpt, hfa, hrec, Option.some.injEq] at h
        simp [← h, ih bs hrec]

theorem traverseOpt_none {α β : Type} (f : α → Option β) :
    ∀ (l : List α), (∃ a ∈ l, f a = none) → traverseOpt f l = none := by
  intro l
  induction l with
  | nil => rintro ⟨a, ha, -⟩; cases ha
  | cons a l ih =>
    rintro ⟨x, hx, hfx⟩
    rcases List.mem_cons.mp hx with rfl | hx
    · simp [traverseOpt, hfx]
    · cases hfa : f a with
      | none => simp [traverseOpt, hfa]
      | some b => simp [traverseOpt, hfa, ih ⟨x, hx, hfx⟩]

theorem traverseOpt_mem {α β : Type} (f : α → Option β) :
    ∀ (l : List α) (ys : List β), traverseOpt f l = some ys →
      ∀ y ∈ ys, ∃ a ∈ l, f a = some y := by
  intro l
  induction l with
  | nil =>
    intro ys h y hy
    simp only [traverseOpt, Option.some.injEq] at h
    subst h
    cases hy
  | cons a l ih =>
    intro ys h y hy
    cases hfa : f a with
    | none => simp [traverseOpt, hfa] at h
    | some b =>
      cases hrec : traverseOpt f l with
      | none => simp [traverseOpt, hfa, hrec] at h
      | some bs =>
        simp only [traverseOpt, hfa, hrec, Option.some.injEq] at h
        subst h
        rcases List.mem_cons.mp hy with rfl | hy
        · exact ⟨a, List.mem_cons_self a l, hfa⟩
        · obtain ⟨x, hx, hfx⟩ := ih bs hrec y hy
          exact ⟨x, List.mem_cons_of_mem a hx, hfx⟩

/-! ### Claims about the parser -/

/-- C3: for every simulation-output stream in which some replicate declares a
segregating-site count greater than or equal to the discretization resolution
(the caller-supplied total length), the replicate parser fails the whole run
(returns none) instead of silently mapping two distinct continuous positions
to the same integer coordinate. -/
theorem c3_resolution_guard (nsam totalPhysLen : ℕ) (m : MsOut)
    (h : ∃ b ∈ m.blocks, totalPhysLen ≤ b.segsites) :
    msOutToHaplotypeArrayIn nsam totalPhysLen m = none := by
  obtain ⟨b, hb, hres⟩ := h
  apply traverseOpt_none
  refine ⟨b, hb, ?_⟩
  simp only [parseBlock]
  rw [if_neg]
  rintro ⟨-, -, hlt, -, -⟩
  omega

theorem c3_resolution_guard_witness :
    msOutToHaplotypeArrayIn 2 3
      ⟨[], [⟨3, [0, 1/2, 1/2], [[1, 1, 1], [0, 0, 0]]⟩]⟩ = none :=
  c3_resolution_guard 2 3 ⟨[], [⟨3, [0, 1/2, 1/2], [[1, 1, 1], [0, 0, 0]]⟩]⟩
    ⟨⟨3, [0, 1/2, 1/2], [[1, 1, 1], [0, 0, 0]]⟩, by simp, by norm_num⟩

/-- C6: the replicate parser / feature assembler is a pure, deterministic
function of the input stream and the total-length parameter: two runs on
equal streams yield identical parse results and identical feature
matrices. -/
theorem c6_parse_deterministic (nsam totalPhysLen : ℕ) (m m' : MsOut)
    (h : m = m') :
    msOutToHaplotypeArrayIn nsam totalPhysLen m =
      msOutToHaplotypeArrayIn nsam totalPhysLen m' ∧
    (msOutToHaplotypeArrayIn nsam totalPhysLen m).bind (buildX nsam totalPhysLen) =
      (msOutToHaplotypeArrayIn nsam totalPhysLen m').bind (buildX nsam totalPhysLen) := by
  subst h
  exact ⟨rfl, rfl⟩

theorem c6_parse_deterministic_witness :
    msOutToHaplotypeArrayIn 2 10 ⟨[], [⟨1, [1/4], [[1], [0]]⟩]⟩ =
      msOutToHaplotypeArrayIn 2 10 ⟨[], [⟨1, [1/4], [[1], [0]]⟩]⟩ ∧
    (msOutToHaplotypeArrayIn 2 10 ⟨[], [⟨1, [1/4], [[1], [0]]⟩]⟩).bind (buildX 2 10) =
      (msOutToHaplotypeArrayIn 2 10 ⟨[], [⟨1, [1/4], [[1], [0]]⟩]⟩).bind (buildX 2 10) :=
  c6_parse_deterministic 2 10 _ _ rfl

/-- C7: a malformed block (wrong number of haplotype lines for the sample
count, or an entry that is not a 0/1 digit) makes the parser fail the whole
run; and the parser never skips a replicate: a successful parse has exactly
one parsed replicate per block of the stream. -/
theorem c7_malformed_fatal (nsam totalPhysLen : ℕ) (m : MsOut) :
    ((∃ b ∈ m.blocks, b.hapLines.length ≠ nsam ∨
        ∃ row ∈ b.hapLines, ∃ d ∈ row, ¬(d = 0 ∨ d = 1)) →
      msOutToHaplotypeArrayIn nsam totalPhysLen m = none) ∧
    (∀ reps, msOutToHaplotypeArrayIn nsam totalPhysLen m = some reps →
      reps.length = m.blocks.length) := by
  constructor
  · rintro ⟨b, hb, hbad⟩
    apply traverseOpt_none
    refine ⟨b, hb, ?_⟩
    simp only [parseBlock]
    rw [if_neg]
    rintro ⟨-, -, -, hn, hrows⟩
    rcases hbad with h | ⟨row, hrow, d, hd, hnd⟩
    · exact h hn
    · exact hnd ((hrows row hrow).2 d hd)
  · intro reps h
    exact traverseOpt_length _ _ _ h

theorem parseBlock_sample :
    parseBlock 2 10 ⟨1, [1/2], [[1], [0]]⟩ = some ⟨[5], [[true], [false]]⟩ := by
  rw [parseBlock, if_pos]
  · simp [discretize]
    norm_num
  · refine ⟨by simp, ?_, by norm_num, by simp, ?_⟩
    · intro p hp
      simp at hp
      subst hp
      norm_num
    · intro row hrow
      fin_cases hrow <;> simp

theorem msOut_sample :
    msOutToHaplotypeArrayIn 2 10 ⟨[], [⟨1, [1/2], [[1], [0]]⟩]⟩ =
      some [⟨[5], [[true], [false]]⟩] := by
  simp only [msOutToHaplotypeArrayIn, traverseOpt]
  rw [parseBlock_sample]

theorem c7_malformed_fatal_witness :
    msOutToHaplotypeArrayIn 2 10 ⟨[], [⟨1, [1/2], [[1]]⟩]⟩ = none ∧
    ([⟨[5], [[true], [false]]⟩] : List Replicate).length = 1 :=
  ⟨(c7_malformed_fatal 2 10 ⟨[], [⟨1, [1/2], [[1]]⟩]⟩).1
      ⟨⟨1, [1/2], [[1]]⟩, by simp, Or.inl (by norm_num)⟩,
   (c7_malformed_fatal 2 10 ⟨[], [⟨1, [1/2], [[1], [0]]⟩]⟩).2 _ msOut_sample⟩

/-! ### Claims about the assembled dataset -/

/-- C1: whenever the pipeline completes, the feature-matrix row count, the
label-vector length and the parsed replicate count are all equal; and a
mismatch between the row count and the label count is fatal (the pipeline
yields none) rather than silently accepted. -/
theorem c1_alignment (nsam totalPhysLen : ℕ) (sizes : List ℚ) (m : MsOut) :
    (∀ X Y, pipeline nsam totalPhysLen sizes m = some (X, Y) →
      X.length = Y.length ∧ X.length = m.blocks.length ∧ Y = sizes) ∧
    (∀ reps X, msOutToHaplotypeArrayIn nsam totalPhysLen m = some reps →
      buildX nsam totalPhysLen reps = some X → X.length ≠ sizes.length →
      pipeline nsam totalPhysLen sizes m = none) := by
  constructor
  · intro X Y h
    simp only [pipeline, Option.bind_eq_some] at h
    obtain ⟨reps, hreps, X', hX', halign⟩ := h
    have hXlen : X'.length = reps.length := traverseOpt_length _ _ _ hX'
    have hrlen : reps.length = m.blocks.length := traverseOpt_length _ _ _ hreps
    simp only [alignedDataset, loadtxt] at halign
    by_cases hc : X'.length = sizes.length
    · rw [if_pos hc] at halign
      simp only [Option.some.injEq, Prod.mk.injEq] at halign
      obtain ⟨rfl, rfl⟩ := halign
      exact ⟨hc, by omega, rfl⟩
    · rw [if_neg hc] at halign
      exact absurd halign (by simp)
  · intro reps X hreps hX hne
    simp [pipeline, hreps, hX, alignedDataset, loadtxt, hne]

/-! Concrete evaluation of the pipeline on a one-replicate stream with one
segregating site at continuous position 1/2, samples [1] and [0], and the
label 5/2. -/

theorem currVec_sample :
    currVec 2 10 ⟨[5], [[true], [false]]⟩ = some [0, 1/10, 1/10, 1/2] := by
  have hg : to_genotypes [[true], [false]] = some [([true], [false])] := rfl
  have hac : count_alleles [([true], [false])] 1 = [(1, 1)] := rfl
  have h1 : tajima_d [(1, 1)] 2 = 0 := rfl
  have hsp : sitePairwiseDiff (1, 1) = 1 := by
    unfold sitePairwiseDiff
    norm_num
  have h2 : sequence_diversity [(1, 1)] 10 = 1/10 := by
    unfold sequence_diversity
    rw [List.map_cons, List.map_nil, List.sum_cons, List.sum_nil, hsp]
    norm_num
  have hha : harmonic 2 = 1 := by
    have hr : List.range 1 = [0] := rfl
    unfold harmonic
    rw [show (2 - 1 : ℕ) = 1 from rfl, hr, List.map_cons, List.map_nil,
      List.sum_cons, List.sum_nil]
    norm_num
  have h3 : watterson_theta [(1, 1)] 2 10 = 1/10 := by
    have hcs : countSegregating [(1, 1)] = 1 := rfl
    unfold watterson_theta
    rw [hcs, hha]
    norm_num
  have hd : ([[true], [false]] : List (List Bool)).dedup = [[true], [false]] := by
    simp [List.dedup_cons_of_not_mem]
  have h4 : garud_h1 [[true], [false]] = 1/2 := by
    unfold garud_h1
    rw [hd, List.map_cons, List.map_cons, List.map_nil, List.sum_cons,
      List.sum_cons, List.sum_nil]
    norm_num [List.count_cons]
  have e : currVec 2 10 ⟨[5], [[true], [false]]⟩ =
      some [tajima_d [(1, 1)] 2, sequence_diversity [(1, 1)] 10,
            watterson_theta [(1, 1)] 2 10, garud_h1 [[true], [false]]] := rfl
  rw [e, h1, h2, h3, h4]

theorem buildX_sample :
    buildX 2 10 [⟨[5], [[true], [false]]⟩] = some [[0, 1/10, 1/10, 1/2]] := by
  simp only [buildX, traverseOpt]
  rw [currVec_sample]

theorem pipeline_sample :
    pipeline 2 10 [5/2] ⟨[], [⟨1, [1/2], [[1], [0]]⟩]⟩ =
      some ([[0, 1/10, 1/10, 1/2]], [5/2]) := by
  simp only [pipeline, msOut_sample, Option.some_bind]
  rw [buildX_sample]
  simp [alignedDataset, loadtxt]

theorem c1_alignment_witness :
    ([[0, 1/10, 1/10, 1/2]] : List (List ℚ)).length = ([5/2] : List ℚ).length ∧
    ([[0, 1/10, 1/10, 1/2]] : List (List ℚ)).length =
      (MsOut.mk [] [⟨1, [1/2], [[1], [0]]⟩]).blocks.length ∧
    ([5/2] : List ℚ) = [5/2] :=
  (c1_alignment 2 10 [5/2] ⟨[], [⟨1, [1/2], [[1], [0]]⟩]⟩).1 _ _ pipeline_sample

/-- C2: for a replicate whose segregating-site count is 0 or 1, the Tajima D
statistic evaluates to the defined sentinel value 0 (no division-by-zero
fault is possible: the degenerate branch is taken before any normalization),
and the pipeline continues past that replicate, still producing its full
four-entry feature row. -/
theorem c2_tajima_sentinel (nsam totalPhysLen : ℕ) (rep : Replicate)
    (genos : List (List Bool × List Bool))
    (hg : to_genotypes rep.haps = some genos)
    (hS : countSegregating (count_alleles genos rep.positions.length) ≤ 1) :
    tajima_d (count_alleles genos rep.positions.length) nsam = 0 ∧
    currVec nsam totalPhysLen rep =
      some [0,
            sequence_diversity (count_alleles genos rep.positions.length) totalPhysLen,
            watterson_theta (count_alleles genos rep.positions.length) nsam totalPhysLen,
            garud_h1 rep.haps] := by
  have h0 : tajima_d (count_alleles genos rep.positions.length) nsam = 0 := by
    simp [tajima_d, hS]
  refine ⟨h0, ?_⟩
  simp only [currVec, hg, Option.map_some', h0]

theorem c2_tajima_sentinel_witness :
    tajima_d (count_alleles [([true], [false])] 1) 2 = 0 ∧
    currVec 2 10 ⟨[5], [[true], [false]]⟩ =
      some [0,
            sequence_diversity (count_alleles [([true], [false])] 1) 10,
            watterson_theta (count_alleles [([true], [false])] 1) 2 10,
            garud_h1 [[true], [false]]] :=
  c2_tajima_sentinel 2 10 ⟨[5], [[true], [false]]⟩ [([true], [false])] rfl
    (by decide)

/-- Every feature vector the loop produces has exactly four entries. -/
theorem currVec_length (nsam totalPhysLen : ℕ) (rep : Replicate) :
    ∀ row, currVec nsam totalPhysLen rep = some row → row.length = 4 := by
  intro row h
  cases hg : to_genotypes rep.haps with
  | none => simp [currVec, hg] at h
  | some genos =>
    simp only [currVec, hg, Option.map_some', Option.some.injEq] at h
    simp [← h]

/-- C8: for every successfully parsed replicate the feature row has exactly
4 entries, in order: Tajima D, nucleotide diversity (pi), Watterson theta,
and the first Garud H component; consequently a successfully assembled
feature matrix has one row per replicate and 4 columns. -/
theorem c8_feature_vector (nsam totalPhysLen : ℕ) (rep : Replicate)
    (genos : List (List Bool × List Bool))
    (hg : to_genotypes rep.haps = some genos) :
    currVec nsam totalPhysLen rep =
      some [tajima_d (count_alleles genos rep.positions.length) nsam,
            sequence_diversity (count_alleles genos rep.positions.length) totalPhysLen,
            watterson_theta (count_alleles genos rep.positions.length) nsam totalPhysLen,
            garud_h1 rep.haps] ∧
    (∀ reps X, buildX nsam totalPhysLen reps = some X →
      X.length = reps.length ∧ ∀ row ∈ X, row.length = 4) := by
  constructor
  · simp only [currVec, hg, Option.map_some']
  · intro reps X hX
    refine ⟨traverseOpt_length _ _ _ hX, ?_⟩
    intro row hrow
    obtain ⟨r, hr, hcv⟩ := traverseOpt_mem _ _ _ hX row hrow
    exact currVec_length nsam totalPhysLen r row hcv

theorem c8_feature_vector_witness :
    currVec 2 10 ⟨[2, 7], [[true, false], [false, false]]⟩ =
      some [tajima_d (count_alleles [([true, false], [false, false])] 2) 2,
            sequence_diversity (count_alleles [([true, false], [false, false])] 2) 10,
            watterson_theta (count_alleles [([true, false], [false, false])] 2) 2 10,
            garud_h1 [[true, false], [false, false]]] :=
  (c8_feature_vector 2 10 ⟨[2, 7], [[true, false], [false, false]]⟩
    [([true, false], [false, false])] rfl).1

/-! ### Claims about the genotype derivation -/

theorem to_genotypes_odd : ∀ (haps : List (List Bool)), haps.length % 2 = 1 →
    to_genotypes haps = none
  | [], h => absurd h (by decide)
  | [_], _ => rfl
  | _ :: _ :: rest, h => by
    have hr : rest.length % 2 = 1 := by
      simp only [List.length_cons] at h
      omega
    simp [to_genotypes, to_genotypes_odd rest hr]

theorem to_genotypes_even : ∀ (haps : List (List Bool)), haps.length % 2 = 0 →
    ∃ g, to_genotypes haps = some g
  | [], _ => ⟨[], rfl⟩
  | [_], h => by
    simp only [List.length_singleton] at h
    omega
  | a :: b :: rest, h => by
    have hr : rest.length % 2 = 0 := by
      simp only [List.length_cons] at h
      omega
    obtain ⟨g, hg⟩ := to_genotypes_even rest hr
    exact ⟨(a, b) :: g, by simp [to_genotypes, hg]⟩

theorem to_genotypes_length : ∀ (haps : List (List Bool))
    (g : List (List Bool × List Bool)), to_genotypes haps = some g →
    2 * g.length = haps.length
  | [], g, h => by
    simp only [to_genotypes, Option.some.injEq] at h
    simp [← h]
  | [_], g, h => by simp [to_genotypes] at h
  | a :: b :: rest, g, h => by
    cases hrec : to_genotypes rest with
    | none => simp [to_genotypes, hrec] at h
    | some g2 =>
      have ih := to_genotypes_length rest g2 hrec
      simp only [to_genotypes, hrec, Option.map_some', Option.some.injEq] at h
      simp [← h, List.length_cons]
      omega

theorem to_genotypes_column : ∀ (haps : List (List Bool))
    (g : List (List Bool × List Bool)), to_genotypes haps = some g →
    ∀ j, genoColumnCount g j = columnCount haps j
  | [], g, h, j => by
    simp only [to_genotypes, Option.some.injEq] at h
    simp [← h, genoColumnCount, columnCount]
  | [_], g, h, j => by simp [to_genotypes] at h
  | a :: b :: rest, g, h, j => by
    cases hrec : to_genotypes rest with
    | none => simp [to_genotypes, hrec] at h
    | some g2 =>
      have ih := to_genotypes_column rest g2 hrec j
      simp only [to_genotypes, hrec, Option.map_some', Option.some.injEq] at h
      simp only [← h, genoColumnCount, columnCount, List.map_cons, List.sum_cons]
      simp only [genoColumnCount, columnCount] at ih
      omega

/-- C9: pairing adjacent haploid samples into diploids (ploidy 2) fails on an
odd number of haplotype rows and succeeds on an even number; and on success
the allele-count table lists, at each site, the derived-allele count equal to
the column sum of the binary haplotype matrix at that site (with the
ancestral count making the total equal to the sample count). -/
theorem c9_genotype_pairing (haps : List (List Bool)) :
    (haps.length % 2 = 1 → to_genotypes haps = none) ∧
    (haps.length % 2 = 0 → ∃ g, to_genotypes haps = some g) ∧
    (∀ g, to_genotypes haps = some g → ∀ numSites : ℕ,
      count_alleles g numSites =
        (List.range numSites).map fun j =>
          (haps.length - columnCount haps j, columnCount haps j)) := by
  refine ⟨to_genotypes_odd haps, to_genotypes_even haps, ?_⟩
  intro g hg numSites
  have hlen := to_genotypes_length haps g hg
  have hcol := to_genotypes_column haps g hg
  unfold count_alleles
  apply List.map_congr_left
  intro j hj
  rw [hcol j, ← hlen]

theorem c9_genotype_pairing_witness :
    to_genotypes [[true], [false], [true]] = none ∧
    count_alleles [([true], [false])] 1 =
      (List.range 1).map fun j =>
        (([[true], [false]] : List (List Bool)).length -
           columnCount [[true], [false]] j,
         columnCount [[true], [false]] j) :=
  ⟨(c9_genotype_pairing [[true], [false], [true]]).1 (by decide),
   (c9_genotype_pairing [[true], [false]]).2.2 [([true], [false])] rfl 1⟩

/-! ### Claim about the label round-trip -/

/-- C5: for every replicate index i, the label read back from the parameter
file for replicate i is the value on line i of that file, and replicate i of
the simulator output stream is the one produced from that same value (the
per-replicate stdin mechanism consumes the lines in order). -/
theorem c5_label_roundtrip (sim : ℚ → MsBlock) (params : List ℚ) (i : ℕ)
    (hi : i < params.length) :
    ∃ v : ℚ, params[i]? = some v ∧ (loadtxt params)[i]? = some v ∧
      (msRun sim params).blocks[i]? = some (sim v) := by
  refine ⟨params[i], List.getElem?_eq_getElem hi, List.getElem?_eq_getElem hi, ?_⟩
  show (params.map sim)[i]? = some (sim params[i])
  rw [List.getElem?_map, List.getElem?_eq_getElem hi, Option.map_some']

theorem c5_label_roundtrip_witness :
    ∃ v : ℚ, ([5/2, 4/5] : List ℚ)[0]? = some v ∧
      (loadtxt [5/2, 4/5])[0]? = some v ∧
      (msRun (fun _ => ⟨1, [1/2], [[1], [0]]⟩) [5/2, 4/5]).blocks[0]? =
        some ((fun _ => (⟨1, [1/2], [[1], [0]]⟩ : MsBlock)) v) :=
  c5_label_roundtrip (fun _ => ⟨1, [1/2], [[1], [0]]⟩) [5/2, 4/5] 0 (by norm_num)

/-! ### Claims about the parameter sampler -/

theorem popSize_bounds {r : ℝ} (h0 : 0 ≤ r) (h1 : r < 1) :
    (1/10 : ℝ) ≤ popSize r ∧ popSize r < 10 := by
  unfold popSize
  constructor
  · have h := Real.rpow_le_rpow_of_exponent_le (by norm_num : (1:ℝ) ≤ 10)
      (by linarith : (-1 : ℝ) ≤ r * 2 - 1)
    rw [Real.rpow_neg_one] at h
    calc (1/10 : ℝ) = 10⁻¹ := by norm_num
    _ ≤ (10:ℝ) ^ (r * 2 - 1) := h
  · have h := Real.rpow_lt_rpow_of_exponent_lt (by norm_num : (1:ℝ) < 10)
      (by linarith : r * 2 - 1 < 1)
    rwa [Real.rpow_one] at h

theorem round_bounds_aux {x : ℝ} (h0 : (1/10 : ℝ) ≤ x) (h1 : x < 10) :
    (100000 : ℤ) ≤ round (x * 10 ^ 6) ∧ round (x * 10 ^ 6) ≤ 10000000 := by
  have hp : (10:ℝ) ^ 6 = 1000000 := by norm_num
  constructor
  · rw [round_eq]
    apply Int.le_floor.mpr
    push_cast
    nlinarith
  · rw [round_eq]
    have h2 : ⌊x * 10 ^ 6 + 1 / 2⌋ < 10000001 := by
      apply Int.floor_lt.mpr
      push_cast
      nlinarith
    omega

theorem fmtF6_bounds {x : ℝ} (h0 : (1/10 : ℝ) ≤ x) (h1 : x < 10) :
    (1/10 : ℚ) ≤ fmtF6 x ∧ fmtF6 x ≤ 10 := by
  obtain ⟨hlb, hub⟩ := round_bounds_aux h0 h1
  unfold fmtF6
  constructor
  · rw [le_div_iff₀ (by norm_num : (0:ℚ) < 10 ^ 6)]
    have hc : ((100000 : ℤ) : ℚ) ≤ (round (x * 10 ^ 6) : ℚ) := by exact_mod_cast hlb
    calc (1/10 : ℚ) * 10 ^ 6 = ((100000 : ℤ) : ℚ) := by norm_num
    _ ≤ _ := hc
  · rw [div_le_iff₀ (by norm_num : (0:ℚ) < 10 ^ 6)]
    have hc : ((round (x * 10 ^ 6) : ℤ) : ℚ) ≤ ((10000000 : ℤ) : ℚ) := by
      exact_mod_cast hub
    calc ((round (x * 10 ^ 6) : ℤ) : ℚ) ≤ ((10000000 : ℤ) : ℚ) := hc
    _ = 10 * 10 ^ 6 := by norm_num

/-- C4: for draws in [0,1), the sampler writes exactly one line per draw
(N draws give N lines, no header), line i holding the formatted sample from
draw i in generation order, and every written value lies within the
configured range bounds 0.1 to 10. -/
theorem c4_sampler_lines (rs : List ℝ) (h : ∀ r ∈ rs, 0 ≤ r ∧ r < 1) :
    (sizesLines rs).length = rs.length ∧
    (∀ i : ℕ, i < rs.length →
      (sizesLines rs)[i]? = (rs[i]?).map fun r => fmtF6 (popSize r)) ∧
    (∀ q ∈ sizesLines rs, (1/10 : ℚ) ≤ q ∧ q ≤ 10) := by
  refine ⟨List.length_map rs _, ?_, ?_⟩
  · intro i hi
    simp [sizesLines, List.getElem?_map]
  · intro q hq
    unfold sizesLines at hq
    rw [List.mem_map] at hq
    obtain ⟨r, hr, rfl⟩ := hq
    obtain ⟨h0, h1⟩ := h r hr
    obtain ⟨hb0, hb1⟩ := popSize_bounds h0 h1
    exact fmtF6_bounds hb0 hb1

theorem c4_sampler_lines_witness :
    (sizesLines [(1/2 : ℝ)]).length = 1 ∧
    (∀ i : ℕ, i < ([(1/2 : ℝ)]).length →
      (sizesLines [(1/2 : ℝ)])[i]? =
        (([(1/2 : ℝ)])[i]?).map fun r => fmtF6 (popSize r)) ∧
    (∀ q ∈ sizesLines [(1/2 : ℝ)], (1/10 : ℚ) ≤ q ∧ q ≤ 10) :=
  c4_sampler_lines [(1/2 : ℝ)] (by
    intro r hr
    rw [List.mem_singleton] at hr
    subst hr
    norm_num)

/-- C10: the fixed-point format writes exactly six digits after the decimal
point (every written value is an integer multiple of one millionth); the
line stored for a draw is the sampled scalar rounded to six decimals; two
distinct sampled values can yield equal written labels; and the written
label can differ from the in-memory sampled value. -/
theorem c10_fixed_point_format :
    (∀ x : ℝ, ∃ n : ℤ, fmtF6 x = (n : ℚ) / 10 ^ 6) ∧
    (∀ (rs : List ℝ) (i : ℕ),
      (sizesLines rs)[i]? = (rs[i]?).map fun r => fmtF6 (popSize r)) ∧
    (∃ r s : ℝ, 0 ≤ r ∧ r < 1 ∧ 0 ≤ s ∧ s < 1 ∧
      popSize r ≠ popSize s ∧ fmtF6 (popSize r) = fmtF6 (popSize s)) ∧
    (∃ r : ℝ, 0 ≤ r ∧ r < 1 ∧ ((fmtF6 (popSize r) : ℝ) ≠ popSize r)) := by
  refine ⟨fun x => ⟨round (x * 10 ^ 6), rfl⟩,
    fun rs i => by simp [sizesLines, List.getElem?_map], ?_, ?_⟩
  · have hy0 : (0:ℝ) < 1 + 1/10^7 := by norm_num
    have hlogb0 : 0 ≤ Real.logb 10 (1 + 1/10^7) :=
      Real.logb_nonneg (by norm_num) (by norm_num)
    have hlogb1 : Real.logb 10 (1 + 1/10^7) < 1 :=
      (Real.logb_lt_iff_lt_rpow (by norm_num) hy0).mpr
        (by rw [Real.rpow_one]; norm_num)
    have hp1 : popSize (1/2 : ℝ) = 1 := by
      unfold popSize
      rw [show ((1:ℝ)/2) * 2 - 1 = 0 by norm_num, Real.rpow_zero]
    have hp2 : popSize ((Real.logb 10 (1 + 1/10^7) + 1)/2) = 1 + 1/10^7 := by
      unfold popSize
      rw [show ((Real.logb 10 (1 + 1/10^7) + 1)/2) * 2 - 1 =
        Real.logb 10 (1 + 1/10^7) by ring]
      exact Real.rpow_logb (by norm_num) (by norm_num) hy0
    have hr1 : round ((1:ℝ) * 10 ^ 6) = 1000000 := by
      rw [round_eq]
      apply Int.floor_eq_iff.mpr
      constructor
      · push_cast
        norm_num
      · push_cast
        norm_num
    have hr2 : round ((1 + 1/10^7 : ℝ) * 10 ^ 6) = 1000000 := by
      rw [round_eq]
      apply Int.floor_eq_iff.mpr
      constructor
      · push_cast
        norm_num
      · push_cast
        norm_num
    refine ⟨1/2, (Real.logb 10 (1 + 1/10^7) + 1)/2,
      by norm_num, by norm_num, by linarith, by linarith, ?_, ?_⟩
    · rw [hp1, hp2]
      norm_num
    · rw [hp1, hp2]
      unfold fmtF6
      rw [hr1, hr2]
  · have hp : popSize (3/4 : ℝ) = Real.sqrt 10 := by
      unfold popSize
      rw [show ((3:ℝ)/4) * 2 - 1 = 1/2 by norm_num]
      exact (Real.sqrt_eq_rpow 10).symm
    have h10 : ¬ IsSquare (10:ℕ) := by
      rintro ⟨k, hk⟩
      rcases Nat.lt_or_ge k 4 with h4 | h4
      · interval_cases k <;> omega
      · have : 16 ≤ k * k := Nat.mul_le_mul h4 h4
        omega
    have hirr : Irrational (Real.sqrt 10) := by
      have h := irrational_sqrt_natCast_iff.mpr h10
      simpa using h
    refine ⟨3/4, by norm_num, by norm_num, ?_⟩
    rw [hp]
    exact (hirr.ne_rat _).symm

end PopGenML
